import Mathlib

/-!
Verification development for the layout-resolution core of a small
HTML-to-PDF translation library (single source file `renderers.tsx`).

The embedding models:
  * JavaScript's `parseInt(s, 10)` on optional attribute strings;
  * the `toRoman` numeral conversion (BigInt truncating division and
    `while (quotient--)` repetition; a negative quotient makes that loop
    run forever, which the embedding records as `none`);
  * the `li` renderer's marker resolution (effective `listStyleType`
    cascade, `none`/`url(` classification, the backward sibling walk for
    `value` overrides, and the alphabetic/Roman/decimal glyph dispatch);
  * the table helpers `childElements`, `getRows`, `getMaxColumns` and the
    cell renderer `renderCell` (border model branch, percentage widths via
    `toFixed(5)`).

JavaScript numbers are modelled as `Int` (all the arithmetic involved is
integral); the single fractional computation (`100 / colCount` scaled by a
`colspan`) is carried exactly as an integer fraction and formatted by a
model of `Number.prototype.toFixed(5)` (sign extracted first, then the
absolute value rounded to the nearest 1e-5, ties away from zero).
Exceptions are modelled with `Except String`.
-/

/-- JS truthiness of an (optional) string attribute or style value:
`undefined` and the empty string are falsy, every other string truthy. -/
def truthy : Option String → Bool
  | none => false
  | some s => s ≠ ""

/-- Accumulate a decimal digit string into a natural number. -/
def digitsToNat (l : List Char) : Nat :=
  l.foldl (fun a c => a * 10 + (c.toNat - '0'.toNat)) 0

/-- Leading run of decimal digits; `none` when there is none
(this is how `parseInt` signals `NaN`). -/
def leadingDigits (l : List Char) : Option Nat :=
  let ds := l.takeWhile Char.isDigit
  if ds.isEmpty then none else some (digitsToNat ds)

/-- Model of JavaScript `parseInt(x, 10)` applied to an attribute that may
be absent (`undefined`): skip leading whitespace, allow one sign, read the
leading decimal digits, ignore any trailing garbage; `none` models `NaN`. -/
def jsParseInt : Option String → Option Int
  | none => none
  | some s =>
    let l := s.data.dropWhile (fun c => c = ' ' ∨ c = '\t' ∨ c = '\n' ∨ c = '\r')
    match l with
    | '-' :: rest => (leadingDigits rest).map (fun n => -(n : Int))
    | '+' :: rest => (leadingDigits rest).map (fun n => (n : Int))
    | _ => (leadingDigits l).map (fun n => (n : Int))

/-- Does `pre` occur at the front of `l`? (char-list helper). -/
def startsList : List Char → List Char → Bool
  | _, [] => true
  | [], _ :: _ => false
  | a :: as, b :: bs => a = b && startsList as bs

/-- Does `needle` occur as a contiguous run inside `hay`? -/
def subIncludes : List Char → List Char → Bool
  | [], needle => needle.isEmpty
  | h :: t, needle => startsList (h :: t) needle || subIncludes t needle

/-- Model of JavaScript `String.prototype.includes` (substring test). -/
def strIncludes (s sub : String) : Bool :=
  subIncludes s.data sub.data

/-- Model of `s.match(/\((.*?)\)/)`: the text between the first `(` and the
first `)` after it; `none` when the regex does not match (no `(`, or no
closing `)` after it), in which case the source dereferences `null`. -/
def extractParen (s : String) : Option String :=
  match s.data.dropWhile (fun c => c ≠ '(') with
  | [] => none
  | _ :: rest =>
    if (rest.dropWhile (fun c => c ≠ ')')).isEmpty then none
    else some ⟨rest.takeWhile (fun c => c ≠ ')')⟩

/-- Model of `.replace(/(['"])/g, '')`: drop every single/double quote. -/
def stripQuotes (s : String) : String :=
  ⟨s.data.filter (fun c => c ≠ '\'' ∧ c ≠ '"')⟩

/-- ASCII lowercase of a string (JS `toLowerCase` on the strings involved). -/
def strLower (s : String) : String := ⟨s.data.map Char.toLower⟩

/-- ASCII uppercase of a string (JS `toUpperCase` on the strings involved). -/
def strUpper (s : String) : String := ⟨s.data.map Char.toUpper⟩

/-- `roman` repeated `quotient` times, as appended by `while (quotient--)`
when the quotient is non-negative. -/
def strRep (r : String) (k : Nat) : String :=
  (List.replicate k r).foldl (fun a b => a ++ b) ""

/-- The conversion map of `toRoman`, in its insertion (iteration) order. -/
def romanMap : List (Int × String) :=
  [(1000, "M"), (900, "CM"), (500, "D"), (400, "CD"), (100, "C"), (90, "XC"),
   (50, "L"), (40, "XL"), (10, "X"), (9, "IX"), (5, "V"), (4, "IV"), (1, "I")]

/-- One pass of `toRoman`'s `forEach` body per map entry: BigInt division
truncates toward zero (`Int.tdiv`), `%` keeps the dividend's sign
(`Int.tmod`), and `while (quotient--)` appends the symbol `quotient` times —
but when the quotient is negative that loop never reaches `0`, so the
computation diverges, which we record as `none`. -/
def toRomanGo : List (Int × String) → Int → String → Option String
  | [], _, result => some result
  | (decimal, roman) :: rest, num, result =>
    let quotient := num.tdiv decimal
    if quotient < 0 then none
    else toRomanGo rest (num.tmod decimal) (result ++ strRep roman quotient.toNat)

/-- Model of the source's `toRoman`; `none` records non-termination of the
`while (quotient--)` loop (negative quotient). -/
def toRoman (num : Int) : Option String :=
  toRomanGo romanMap num ""

/-- The conversion map over naturals (for reasoning about non-negative
inputs). -/
def romanDigits : List (Nat × String) :=
  [(1000, "M"), (900, "CM"), (500, "D"), (400, "CD"), (100, "C"), (90, "XC"),
   (50, "L"), (40, "XL"), (10, "X"), (9, "IX"), (5, "V"), (4, "IV"), (1, "I")]

/-- The terminating computation `toRoman` performs on a non-negative input:
per map entry append the symbol `n / d` times and continue with `n % d`. -/
def natRomanGo : List (Nat × String) → Nat → String
  | [], _ => ""
  | (d, r) :: rest, n => strRep r (n / d) ++ natRomanGo rest (n % d)

/-- The string `toRoman` produces on a non-negative input. -/
def natRoman (n : Nat) : String := natRomanGo romanDigits n

/-- Spec-side Roman numeralization: greedy descending substitution — take
the first (largest) map value that still fits, emit its symbol, subtract,
repeat.  Structured with explicit fuel (`n` itself suffices, every step
consumes at least 1). -/
def specRomanGo (l : List (Nat × String)) : Nat → Nat → String
  | 0, _ => ""
  | fuel + 1, n =>
    match l.find? (fun p => p.1 ≤ n) with
    | some (d, r) => r ++ specRomanGo l fuel (n - d)
    | none => ""

/-- Spec-side Roman numeral of `n` (empty for `0`). -/
def specRoman (n : Nat) : String := specRomanGo romanDigits n n

example : toRoman 1987 = some "MCMLXXXVII" := by decide
example : toRoman 4 = some "IV" := by decide
example : toRoman 0 = some "" := by decide
example : toRoman (-1) = none := by decide
example : specRoman 1987 = "MCMLXXXVII" := by decide
example : jsParseInt (some "3abc") = some 3 := by decide
example : jsParseInt (some " -12") = some (-12) := by decide
example : jsParseInt (some "abc") = none := by decide
example : jsParseInt none = none := by decide
example : strIncludes "lower-roman" "none" = false := by decide
example : strIncludes "circle none" "none" = true := by decide
example : extractParen "url('a.png')" = some "'a.png'" := by decide
example : extractParen "url(broken" = none := by decide
example : stripQuotes "'a.png'" = "a.png" := by decide

/-- A resolved style mapping as the parser attaches it to an element
(`HtmlStyle`): only the properties the core reads, each possibly absent. -/
structure HtmlStyle where
  listStyleType : Option String := none
  listStyle : Option String := none
  border : Option String := none
  borderColor : Option String := none
  borderWidth : Option String := none
  borderStyle : Option String := none
  borderSpacing : Option String := none
  borderCollapse : Option String := none
deriving Repr, DecidableEq

/-- `Object.assign(combined, cur)`: a property present in `cur` overrides
the accumulated one. -/
def assignStyle (acc cur : HtmlStyle) : HtmlStyle where
  listStyleType := cur.listStyleType.or acc.listStyleType
  listStyle := cur.listStyle.or acc.listStyle
  border := cur.border.or acc.border
  borderColor := cur.borderColor.or acc.borderColor
  borderWidth := cur.borderWidth.or acc.borderWidth
  borderStyle := cur.borderStyle.or acc.borderStyle
  borderSpacing := cur.borderSpacing.or acc.borderSpacing
  borderCollapse := cur.borderCollapse.or acc.borderCollapse

/-- `styles.reduce((combined, s) => Object.assign(combined, s), {})`. -/
def mergeStyles (styles : List HtmlStyle) : HtmlStyle :=
  styles.foldl assignStyle {}

/-- JS `a || b` on an optional style string (empty string is falsy). -/
def orFalsy (o : Option String) (alt : String) : String :=
  match o with
  | some s => if s = "" then alt else s
  | none => alt

/-- What the `li` walk reads off each element in the backward sibling
chain: its tag, its `value` attribute and its `indexOfType`. -/
structure SibInfo where
  tag : String
  value : Option String
  indexOfType : Nat
deriving Repr, DecidableEq

/-- The `closest('ol, ul')` ancestor of a list item: its tag and its
resolved style entries. -/
structure ListInfo where
  tag : String
  styles : List HtmlStyle
deriving Repr, DecidableEq

/-- Everything the `li` renderer reads from a list-item element: its
`indexOfType`, its `value` attribute, its direct parent's tag and `start`
attribute, its `closest('ol, ul')` ancestor (if any), its own resolved
style entries, and its preceding element siblings (nearest first, as
delivered by repeated `previousElementSibling`). -/
structure LiElement where
  indexOfType : Nat
  value : Option String
  parentTag : String
  parentStart : Option String
  list : Option ListInfo
  ownStyles : List HtmlStyle
  prevSiblings : List SibInfo
deriving Repr, DecidableEq

/-- The effective `listStyleType`: item `listStyleType`, else item
`listStyle`, else the owning list's `listStyleType`, else its `listStyle`,
else the empty string (JS `||` chain). -/
def effLst (e : LiElement) : String :=
  let itemStyle := mergeStyles e.ownStyles
  let listStyle := match e.list with
    | some l => mergeStyles l.styles
    | none => {}
  orFalsy itemStyle.listStyleType (orFalsy itemStyle.listStyle
    (orFalsy listStyle.listStyleType (orFalsy listStyle.listStyle "")))

/-- `ordered`: the closest `ol`/`ul` ancestor is an `ol`, or the direct
parent's tag is `ol`. -/
def liOrdered (e : LiElement) : Bool :=
  (match e.list with
   | some l => l.tag = "ol"
   | none => false) || e.parentTag = "ol"

/-- The zero-based offset contributed by the parent's `start` attribute
(`start - 1` when it parses, else `0`). -/
def liOffset (e : LiElement) : Int :=
  match jsParseInt e.parentStart with
  | some st => st - 1
  | none => 0

/-- The chain the `do`/`while` walk visits: the item itself (tag `li`)
followed by its preceding element siblings, nearest first. -/
def selfChain (e : LiElement) : List SibInfo :=
  ⟨"li", e.value, e.indexOfType⟩ :: e.prevSiblings

/-- The backward walk of the `li` renderer: skip every element whose tag
is not `li` (`continue`), and at an `li` whose `value` attribute parses,
stop with `startValue + (currentIndex - indexOfType) - 1`; when the chain
runs out, keep `init`. -/
def liWalk (currentIndex : Int) (init : Int) : List SibInfo → Int
  | [] => init
  | s :: rest =>
    if s.tag ≠ "li" then liWalk currentIndex init rest
    else match jsParseInt s.value with
      | some startValue => startValue + (currentIndex - s.indexOfType) - 1
      | none => liWalk currentIndex init rest

/-- The `updatedIndex` the renderer ends the walk with. -/
def liUpdatedIndex (e : LiElement) : Int :=
  liWalk e.indexOfType ((e.indexOfType : Int) + liOffset e) (selfChain e)

/-- Modelled from the spec: the alphabetic marker table `orderedAlpha` of
the repository's `ordered.type` module (not part of the provided source)
— entries `"a"` through `"z"` at indices 0‥25; an index outside the table
yields `undefined` in JS, here `none`. -/
def orderedAlpha : List String :=
  ["a", "b", "c", "d", "e", "f", "g", "h", "i", "j", "k", "l", "m",
   "n", "o", "p", "q", "r", "s", "t", "u", "v", "w", "x", "y", "z"]

/-- Modelled from the spec: the style names of the lower-alphabetic family
recognised by `ordered.type` (`lower-alpha` / `lower-latin`). -/
def lowerAlpha : List String := ["lower-alpha", "lower-latin"]

/-- Modelled from the spec: the style names of the upper-alphabetic family
recognised by `ordered.type` (`upper-alpha` / `upper-latin`). -/
def upperAlpha : List String := ["upper-alpha", "upper-latin"]

/-- JS array subscript `orderedAlpha[i]` with a possibly negative or
out-of-range index. -/
def alphaAt (i : Int) : Option String :=
  if i < 0 then none else orderedAlpha.get? i.toNat

/-- A list-item marker: none (`bullet = false`), an image marker, or a
text marker. -/
inductive Bullet where
  | none
  | image (url : String)
  | text (s : String)
deriving Repr, DecidableEq

/-- The `li` renderer's marker resolution, in source order: the `none`
substring check, the `url(` substring check (dereferencing a failed regex
match throws), the ordered branch (backward walk, then alphabetic / Roman /
decimal dispatch; an out-of-range alphabetic index dereferences `undefined`
and throws), else the plain bullet. -/
def liBullet (e : LiElement) : Except String Bullet :=
  let lst := effLst e
  if strIncludes lst "none" then .ok .none
  else if strIncludes lst "url(" then
    match extractParen lst with
    | some u => .ok (.image (stripQuotes u))
    | Option.none => .error "TypeError: match returned null"
  else if liOrdered e then
    let updatedIndex := liUpdatedIndex e
    if lowerAlpha.contains lst then
      match alphaAt updatedIndex with
      | some a => .ok (.text (strLower a ++ "."))
      | Option.none => .error "TypeError: toLowerCase of undefined"
    else if upperAlpha.contains lst then
      match alphaAt updatedIndex with
      | some a => .ok (.text (strUpper a ++ "."))
      | Option.none => .error "TypeError: toUpperCase of undefined"
    else if lst = "lower-roman" then
      match toRoman ((e.indexOfType : Int) + 1) with
      | some r => .ok (.text (strLower r ++ "."))
      | Option.none => .error "nontermination"
    else if lst = "upper-roman" then
      match toRoman ((e.indexOfType : Int) + 1) with
      | some r => .ok (.text (strUpper r ++ "."))
      | Option.none => .error "nontermination"
    else .ok (.text (toString (updatedIndex + 1) ++ "."))
  else .ok (.text "•")

/-- Is the outcome an exception? -/
def isErr {α : Type} (x : Except String α) : Bool :=
  match x with
  | .error _ => true
  | .ok _ => false

instance {α β : Type} [DecidableEq α] [DecidableEq β] : DecidableEq (Except α β) :=
  fun x y =>
    match x, y with
    | .error a, .error b =>
      if h : a = b then .isTrue (by rw [h]) else .isFalse (by intro hc; cases hc; exact h rfl)
    | .ok a, .ok b =>
      if h : a = b then .isTrue (by rw [h]) else .isFalse (by intro hc; cases hc; exact h rfl)
    | .error _, .ok _ => .isFalse (by intro hc; cases hc)
    | .ok _, .error _ => .isFalse (by intro hc; cases hc)

example :
    liBullet { indexOfType := 2, value := some "10", parentTag := "ol",
               parentStart := none, list := none, ownStyles := [],
               prevSiblings := [⟨"li", none, 1⟩, ⟨"li", none, 0⟩] } =
      .ok (.text "10.") := by decide

example :
    liBullet { indexOfType := 3, value := none, parentTag := "ol",
               parentStart := none, list := none, ownStyles := [],
               prevSiblings := [⟨"li", some "10", 2⟩, ⟨"li", none, 1⟩, ⟨"li", none, 0⟩] } =
      .ok (.text "11.") := by decide

example :
    liBullet { indexOfType := 3, value := some "7", parentTag := "ol",
               parentStart := some "4", list := none,
               ownStyles := [{ listStyleType := some "lower-roman" }],
               prevSiblings := [] } = .ok (.text "iv.") := by decide

example :
    liBullet { indexOfType := 0, value := some "-5", parentTag := "ol",
               parentStart := none,
               list := some ⟨"ol", [{ listStyleType := some "lower-alpha" }]⟩,
               ownStyles := [], prevSiblings := [] } =
      .error "TypeError: toLowerCase of undefined" := by decide

example :
    liBullet { indexOfType := 0, value := none, parentTag := "ul",
               parentStart := none, list := none,
               ownStyles := [{ listStyle := some "url(broken" }],
               prevSiblings := [] } =
      .error "TypeError: match returned null" := by decide

example :
    liBullet { indexOfType := 4, value := none, parentTag := "ul",
               parentStart := none, list := none, ownStyles := [],
               prevSiblings := [] } = .ok (.text "•") := by decide

/-- A node of the parsed tree: an element (tag, attributes, children) or a
non-element node (text, comment, …). -/
inductive HNode where
  | elem (tag : String) (attrs : List (String × String)) (children : List HNode)
  | text (s : String)
deriving Repr

/-- Attribute lookup on an element (first binding wins); `none` on a
non-element or a missing attribute. -/
def getAttr (n : HNode) (name : String) : Option String :=
  match n with
  | .elem _ attrs _ => (attrs.find? (fun p => p.1 = name)).map Prod.snd
  | .text _ => none

/-- `childElements(element, tagNames)`: the direct children that are
element nodes whose lowercased tag is in `tagNames`. -/
def childElements (n : HNode) (tagNames : List String) : List HNode :=
  match n with
  | .elem _ _ children =>
    children.filter (fun c =>
      match c with
      | .elem t _ _ => tagNames.contains (strLower t)
      | .text _ => false)
  | .text _ => []

/-- `getRows(table)`: the `tr` direct children, then for each `tbody` /
`thead` direct child (in document order) that section's `tr` children. -/
def getRows (table : HNode) : List HNode :=
  (childElements table ["tbody", "thead"]).foldl
    (fun rows section_ => rows ++ childElements section_ ["tr"])
    (childElements table ["tr"])

/-- The inner `forEach` accumulation of `getMaxColumns`: add the parsed
`colspan` when it parses, else add 1. -/
def cellSpanAdd (acc : Int) (col : HNode) : Int :=
  match jsParseInt (getAttr col "colspan") with
  | some colspan => acc + colspan
  | none => acc + 1

/-- One row's column count: the span sum over its `td`/`th` children. -/
def rowColCount (row : HNode) : Int :=
  (childElements row ["td", "th"]).foldl cellSpanAdd 0

/-- `getMaxColumns(table)`: `1` for a null/absent table, else
`Math.max(1, ...colCounts)` over the discovered rows. -/
def getMaxColumns : Option HNode → Int
  | none => 1
  | some table => ((getRows table).map rowColCount).foldl max 1

/-- A style value as it ends up in the computed cell style: a string or a
number (the collapse branch writes the number `0`). -/
inductive CssVal where
  | str (s : String)
  | int (n : Int)
deriving Repr, DecidableEq

/-- The computed `baseStyles` record of `renderCell`; every field starts
absent. -/
structure CellStyle where
  border : Option String := none
  borderColor : Option String := none
  borderWidth : Option String := none
  borderStyle : Option String := none
  width : Option CssVal := none
  margin : Option String := none
  borderRightWidth : Option CssVal := none
  borderBottomWidth : Option CssVal := none
  borderLeftWidth : Option CssVal := none
  borderTopWidth : Option CssVal := none
deriving Repr, DecidableEq

/-- What `renderCell` reads from the enclosing table: the table node (for
row/column discovery) and its resolved style entries. -/
structure TableCtx where
  node : HNode
  styles : List HtmlStyle
deriving Repr

/-- What `renderCell` reads from the cell element itself: its
`indexOfType` and its `colspan` attribute. -/
structure CellCtx where
  indexOfType : Nat
  colspan : Option String
deriving Repr, DecidableEq

/-- Model of `Number.prototype.toFixed(5)` applied to the exact fraction
`num / den` (`den` is the positive column count in every use): the sign is
extracted first, then the absolute value is rounded to the nearest
multiple of 1e-5 with ties picking the larger scaled integer, and the
result is printed with exactly five decimals. -/
def jsToFixed5 (num den : Int) : String :=
  let sgn := if (num < 0 ∧ 0 < den) ∨ (0 < num ∧ den < 0) then "-" else ""
  let a := num.natAbs
  let b := den.natAbs
  let n := (2 * a * 100000 + b) / (2 * b)
  let frac := toString (n % 100000)
  sgn ++ toString (n / 100000) ++ "." ++
    (⟨List.replicate (5 - frac.length) '0'⟩ ++ frac)

/-- The `baseStyles` of `renderCell` after the border-model branch, before
the width computation: copy the table's four border properties, then
either the spacing model (width set to the table border width, margin set
to the spacing) or the collapse model (right/bottom zeroed, left/top set
to the table border width only when `indexOfType ≠ 0`). -/
def cellBorderBase (ts : HtmlStyle) (indexOfType : Nat) : CellStyle :=
  let base0 : CellStyle :=
    { border := ts.border, borderColor := ts.borderColor,
      borderWidth := ts.borderWidth, borderStyle := ts.borderStyle }
  if truthy ts.borderSpacing && ts.borderCollapse ≠ some "collapse" then
    { base0 with width := ts.borderWidth.map CssVal.str, margin := ts.borderSpacing }
  else
    let b := { base0 with borderRightWidth := some (.int 0),
                          borderBottomWidth := some (.int 0) }
    if indexOfType ≠ 0 then
      { b with borderLeftWidth := ts.borderWidth.map CssVal.str,
               borderTopWidth := ts.borderWidth.map CssVal.str }
    else b

/-- `renderCell`: throw when `closest('table')` found nothing, else merge
the table's styles, run the border-model branch, then overwrite `width`
with the percentage `100 / maxColumns` — scaled by the cell's `colspan`
when that attribute is truthy and parses. -/
def renderCell (table? : Option TableCtx) (cell : CellCtx) :
    Except String CellStyle :=
  match table? with
  | none => .error "td element rendered outside of a table"
  | some table =>
    let ts := mergeStyles table.styles
    let base1 := cellBorderBase ts cell.indexOfType
    let colCount := getMaxColumns (some table.node)
    let base2 := { base1 with width := some (.str (jsToFixed5 100 colCount ++ "%")) }
    let base3 :=
      if truthy cell.colspan then
        match jsParseInt cell.colspan with
        | some colspan =>
          { base2 with width := some (.str (jsToFixed5 (colspan * 100) colCount ++ "%")) }
        | none => base2
      else base2
    .ok base3

/-- The `width` of a successfully computed cell style. -/
def cellWidth (x : Except String CellStyle) : Option CssVal :=
  match x with
  | .ok st => st.width
  | .error _ => none

/-- A table with one `tr` carrying four `td` children (no attributes). -/
def table4 : HNode :=
  .elem "table" []
    [.elem "tr" [] [.elem "td" [] [], .elem "td" [] [], .elem "td" [] [],
                    .elem "td" [] []]]

example : getMaxColumns (some table4) = 4 := by decide

example :
    cellWidth (renderCell (some ⟨table4, []⟩) ⟨1, some "2"⟩) =
      some (.str "50.00000%") := by decide

/-- The spec's example table `[[td,td],[td colspan=3]]`. -/
def tableSpanned : HNode :=
  .elem "table" []
    [.elem "tr" [] [.elem "td" [] [], .elem "td" [] []],
     .elem "tr" [] [.elem "td" [("colspan", "3")] []]]

example : getMaxColumns (some tableSpanned) = 3 := by decide

/-- A table whose single row has one `td` with `colspan="0"`. -/
def tableZeroSpan : HNode :=
  .elem "table" [] [.elem "tr" [] [.elem "td" [("colspan", "0")] []]]

example : getMaxColumns (some tableZeroSpan) = 1 := by decide

example :
    cellWidth (renderCell (some ⟨tableZeroSpan, []⟩) ⟨0, some "0"⟩) =
      some (.str "0.00000%") := by decide

example :
    renderCell none ⟨0, none⟩ = .error "td element rendered outside of a table" := by
  decide

/-- A table whose markup interleaves a `thead` (with one row) before a
bare `tr`: row discovery still lists the bare row first. -/
def tableHeadFirst : HNode :=
  .elem "table" []
    [.elem "thead" [] [.elem "tr" [("id", "head")] []],
     .elem "tr" [("id", "bare")] []]

example :
    getRows tableHeadFirst =
      [.elem "tr" [("id", "bare")] [], .elem "tr" [("id", "head")] []] := rfl

/-- Spec-side row discovery: the `tr` direct children, followed by the
concatenation, over the `thead`/`tbody` direct children in document
order, of each section's `tr` children. -/
def specRows (t : HNode) : List HNode :=
  childElements t ["tr"] ++
    ((childElements t ["tbody", "thead"]).map (fun s => childElements s ["tr"])).flatten

/-- Spec-side span sum of one row: over the row's `td`/`th` children, the
`colspan` attribute parsed as an integer, defaulting to 1 when absent or
unparseable. -/
def specRowSum (row : HNode) : Int :=
  ((childElements row ["td", "th"]).map
    (fun c => (jsParseInt (getAttr c "colspan")).getD 1)).sum

/-- Spec-side condition for the spacing border model: a non-empty (truthy)
`borderSpacing` and a `borderCollapse` other than `"collapse"`. -/
def specSpacingCond (ts : HtmlStyle) : Bool :=
  truthy ts.borderSpacing && ts.borderCollapse ≠ some "collapse"

/-- The computed style of a cell resolution that did not throw (the
defaulted record is never reached for a cell inside a table). -/
def cellStyleOf (x : Except String CellStyle) : CellStyle :=
  match x with
  | .ok st => st
  | .error _ => {}

/-- The predicate of the spec's backward walk: an `li` sibling whose
`value` attribute parses. -/
def liValuePred (s : SibInfo) : Bool :=
  s.tag == "li" && (jsParseInt s.value).isSome

/-- A table element with no row-bearing descendants at all. -/
def tableRowless : HNode :=
  .elem "table" [] [.elem "caption" [] [], .text "stray text"]

/-- The exact throw condition of the `li` marker resolution (amended C7):
a `url(` style whose parenthesized group is unmatched, or an ordered item
with an alphabetic style whose adjusted index falls outside the alphabetic
table; everything else — malformed attributes included — resolves. -/
def liThrows (e : LiElement) : Bool :=
  if strIncludes (effLst e) "none" then false
  else if strIncludes (effLst e) "url(" then (extractParen (effLst e)).isNone
  else if liOrdered e then
    (lowerAlpha.contains (effLst e) || upperAlpha.contains (effLst e)) &&
      (alphaAt (liUpdatedIndex e)).isNone
  else false

/-! ## Helper lemmas -/

lemma foldl_append_flatten {α β : Type} (f : α → List β) :
    ∀ (l : List α) (init : List β),
      l.foldl (fun acc x => acc ++ f x) init = init ++ (l.map f).flatten := by
  intro l
  induction l with
  | nil => intro init; simp
  | cons x xs ih => intro init; simp [ih, List.append_assoc]

lemma foldr_max_shift : ∀ (l : List Int) (a b : Int),
    l.foldr max (max a b) = max b (l.foldr max a) := by
  intro l
  induction l with
  | nil => intro a b; simp [max_comm]
  | cons y ys ih =>
    intro a b
    simp only [List.foldr_cons, ih]
    rw [max_left_comm]

lemma foldl_max_eq_foldr : ∀ (l : List Int) (a : Int),
    l.foldl max a = l.foldr max a := by
  intro l
  induction l with
  | nil => intro a; rfl
  | cons x xs ih =>
    intro a
    simp only [List.foldl_cons, List.foldr_cons, ih]
    rw [foldr_max_shift]

lemma le_foldr_max (l : List Int) (a : Int) : a ≤ l.foldr max a := by
  induction l with
  | nil => simp
  | cons x xs ih => simp only [List.foldr_cons]; exact le_max_of_le_right ih

lemma rowColCount_eq_specRowSum (row : HNode) : rowColCount row = specRowSum row := by
  have h : ∀ (cells : List HNode) (a : Int),
      cells.foldl cellSpanAdd a =
        a + (cells.map (fun c => (jsParseInt (getAttr c "colspan")).getD 1)).sum := by
    intro cells
    induction cells with
    | nil => intro a; simp
    | cons c cs ih =>
      intro a
      simp only [List.foldl_cons, List.map_cons, List.sum_cons, ih]
      cases hp : jsParseInt (getAttr c "colspan") with
      | none => simp [cellSpanAdd, hp]; ring
      | some n => simp [cellSpanAdd, hp]; ring
  simpa [rowColCount, specRowSum] using h (childElements row ["td", "th"]) 0

/-! ## Claims C2, C3, C9, C10 -/

/-- C2: rendering a `td`/`th` with no ancestor `table` raises the
structural error, and this is the only failure: with an ancestor table the
resolution always completes with a computed style. -/
theorem claim_C2_cell_requires_table :
    (∀ c : CellCtx, renderCell none c = .error "td element rendered outside of a table") ∧
    (∀ (t : TableCtx) (c : CellCtx), ∃ st, renderCell (some t) c = .ok st) := by
  constructor
  · intro c; rfl
  · intro t c
    simp only [renderCell]
    exact ⟨_, rfl⟩

/-- C9: row discovery is exactly the table's direct `tr` children followed
by the `tr` children of each `thead`/`tbody` section in document order; a
`thead` written before bare rows still contributes after them, and a table
with no row-bearing descendants yields the empty sequence. -/
theorem claim_C9_row_discovery :
    (∀ t : HNode, getRows t = specRows t) ∧
    getRows tableHeadFirst =
      [.elem "tr" [("id", "bare")] [], .elem "tr" [("id", "head")] []] ∧
    getRows tableRowless = [] := by
  refine ⟨?_, rfl, rfl⟩
  intro t
  simp only [getRows, specRows]
  exact foldl_append_flatten (fun s => childElements s ["tr"]) _ _

/-- C3: the column count of a present table is `max(1, max over discovered
rows of the row's colspan sum)` (each cell contributing its parsed
`colspan`, default 1); a null table argument yields 1, and a table with
zero rows yields 1. -/
theorem claim_C3_max_columns :
    getMaxColumns none = 1 ∧
    (∀ t : HNode,
      getMaxColumns (some t) = max 1 (((getRows t).map specRowSum).foldr max 1)) ∧
    (∀ t : HNode, getRows t = [] → getMaxColumns (some t) = 1) := by
  refine ⟨rfl, ?_, ?_⟩
  · intro t
    have h1 : (getRows t).map rowColCount = (getRows t).map specRowSum := by
      simp [rowColCount_eq_specRowSum]
    have h2 : (1 : Int) ≤ ((getRows t).map specRowSum).foldr max 1 := le_foldr_max _ _
    simp only [getMaxColumns, h1, foldl_max_eq_foldr]
    exact (max_eq_right h2).symm
  · intro t h
    simp [getMaxColumns, h]

/-- C10: a parable `colspan` string — including `"0"`, negatives and a
numeric prefix followed by garbage — contributes its parsed value to the
span sum (only an unparseable one defaults to 1); a row whose only cell
has `colspan="0"` sums to 0, floors the table to one column, and such a
cell's resolved width is `"0.00000%"`. -/
theorem claim_C10_colspan_literal :
    (jsParseInt (some "0") = some 0 ∧ jsParseInt (some "-2") = some (-2) ∧
      jsParseInt (some "3abc") = some 3) ∧
    (∀ (acc : Int) (c : HNode),
      cellSpanAdd acc c = acc + (jsParseInt (getAttr c "colspan")).getD 1) ∧
    rowColCount (.elem "tr" [] [.elem "td" [("colspan", "0")] []]) = 0 ∧
    getMaxColumns (some tableZeroSpan) = 1 ∧
    cellWidth (renderCell (some ⟨tableZeroSpan, []⟩) ⟨0, some "0"⟩) =
      some (.str "0.00000%") := by
  refine ⟨⟨by decide, by decide, by decide⟩, ?_, by decide, by decide, by decide⟩
  intro acc c
  cases hp : jsParseInt (getAttr c "colspan") with
  | none => simp [cellSpanAdd, hp]
  | some n => simp [cellSpanAdd, hp]

/-! ## Claims C4 and C5 -/

lemma cellBorderBase_cases (ts : HtmlStyle) (i : Nat) :
    cellBorderBase ts i =
      if specSpacingCond ts then
        { border := ts.border, borderColor := ts.borderColor,
          borderWidth := ts.borderWidth, borderStyle := ts.borderStyle,
          width := ts.borderWidth.map CssVal.str, margin := ts.borderSpacing }
      else if i = 0 then
        { border := ts.border, borderColor := ts.borderColor,
          borderWidth := ts.borderWidth, borderStyle := ts.borderStyle,
          borderRightWidth := some (.int 0), borderBottomWidth := some (.int 0) }
      else
        { border := ts.border, borderColor := ts.borderColor,
          borderWidth := ts.borderWidth, borderStyle := ts.borderStyle,
          borderRightWidth := some (.int 0), borderBottomWidth := some (.int 0),
          borderLeftWidth := ts.borderWidth.map CssVal.str,
          borderTopWidth := ts.borderWidth.map CssVal.str } := by
  unfold cellBorderBase specSpacingCond
  by_cases h : (truthy ts.borderSpacing && ts.borderCollapse ≠ some "collapse") = true
  · simp only [h]
    simp at h
    simp [h]
  · have h2 : (truthy ts.borderSpacing && ts.borderCollapse ≠ some "collapse") = false := by
      revert h
      cases truthy ts.borderSpacing && ts.borderCollapse ≠ some "collapse" <;> simp
    simp only [h2]
    simp only [Bool.and_eq_true, decide_eq_true_eq] at h
    by_cases hi : i = 0
    · simp [hi, h]
    · simp [hi, h]

lemma renderCell_structure (t : TableCtx) (c : CellCtx) :
    ∃ w, renderCell (some t) c =
      .ok { cellBorderBase (mergeStyles t.styles) c.indexOfType with width := w } := by
  simp only [renderCell]
  split
  · split
    · exact ⟨_, rfl⟩
    · exact ⟨_, rfl⟩
  · exact ⟨_, rfl⟩

/-- C4: for every cell inside a table, the resolved width is
`100 / maxColumns` formatted by `toFixed(5)` with a `%` suffix, scaled by
the `colspan` when that attribute parses; a `colspan="2"` cell of a
4-column table gets `"50.00000%"`. -/
theorem claim_C4_cell_width :
    (∀ (t : TableCtx) (c : CellCtx),
      cellWidth (renderCell (some t) c) =
        some (.str ((match jsParseInt c.colspan with
          | some n => jsToFixed5 (n * 100) (getMaxColumns (some t.node))
          | none => jsToFixed5 100 (getMaxColumns (some t.node))) ++ "%"))) ∧
    cellWidth (renderCell (some ⟨table4, []⟩) ⟨1, some "2"⟩) =
      some (.str "50.00000%") := by
  refine ⟨?_, by decide⟩
  intro t c
  cases hc : c.colspan with
  | none => simp [renderCell, cellWidth, truthy, hc, jsParseInt]
  | some s =>
    by_cases hs : s = ""
    · subst hs
      have hp : jsParseInt (some "") = none := rfl
      simp [renderCell, cellWidth, truthy, hc, hp]
    · cases hp : jsParseInt (some s) with
      | none => simp [renderCell, cellWidth, truthy, hc, hs, hp]
      | some n => simp [renderCell, cellWidth, truthy, hc, hs, hp]

/-- C5: with a non-empty `borderSpacing` and `borderCollapse` other than
`"collapse"`, the cell's margin becomes the spacing value, its width base
(before the percentage overwrite) is the table border width, and no border
is suppressed; otherwise right/bottom border widths are zeroed
unconditionally and left/top become the table border width exactly when
the cell's `indexOfType` is not 0. -/
theorem claim_C5_border_model :
    ∀ (t : TableCtx) (c : CellCtx),
      (cellStyleOf (renderCell (some t) c)).margin =
        (if specSpacingCond (mergeStyles t.styles) then
          (mergeStyles t.styles).borderSpacing else none) ∧
      (cellBorderBase (mergeStyles t.styles) c.indexOfType).width =
        (if specSpacingCond (mergeStyles t.styles) then
          (mergeStyles t.styles).borderWidth.map CssVal.str else none) ∧
      (cellStyleOf (renderCell (some t) c)).borderRightWidth =
        (if specSpacingCond (mergeStyles t.styles) then none else some (.int 0)) ∧
      (cellStyleOf (renderCell (some t) c)).borderBottomWidth =
        (if specSpacingCond (mergeStyles t.styles) then none else some (.int 0)) ∧
      (cellStyleOf (renderCell (some t) c)).borderLeftWidth =
        (if specSpacingCond (mergeStyles t.styles) then none
         else if c.indexOfType ≠ 0 then
           (mergeStyles t.styles).borderWidth.map CssVal.str else none) ∧
      (cellStyleOf (renderCell (some t) c)).borderTopWidth =
        (if specSpacingCond (mergeStyles t.styles) then none
         else if c.indexOfType ≠ 0 then
           (mergeStyles t.styles).borderWidth.map CssVal.str else none) := by
  intro t c
  obtain ⟨w, hw⟩ := renderCell_structure t c
  simp only [cellStyleOf, hw, cellBorderBase_cases]
  by_cases hsp : specSpacingCond (mergeStyles t.styles) = true
  · simp [hsp]
  · by_cases hi : c.indexOfType = 0
    · simp [hsp, hi]
    · simp [hsp, hi]

/-! ## Roman-numeral lemmas -/

theorem claim_C3_witness :
    getRows tableRowless = [] ∧ getMaxColumns (some tableRowless) = 1 :=
  ⟨rfl, claim_C3_max_columns.2.2 tableRowless rfl⟩

lemma strFoldl_shift : ∀ (l : List String) (x y : String),
    l.foldl (fun a b => a ++ b) (x ++ y) = x ++ l.foldl (fun a b => a ++ b) y := by
  intro l
  induction l with
  | nil => intro x y; rfl
  | cons z zs ih =>
    intro x y
    simp only [List.foldl_cons]
    rw [String.append_assoc, ih]

lemma strRep_succ (r : String) (k : Nat) : strRep r (k + 1) = r ++ strRep r k := by
  simp only [strRep, List.replicate_succ, List.foldl_cons]
  rw [show ("" ++ r) = (r ++ "") by simp, strFoldl_shift]

lemma natRomanGo_zero : ∀ l : List (Nat × String), natRomanGo l 0 = "" := by
  intro l
  induction l with
  | nil => rfl
  | cons p rest ih =>
    obtain ⟨d, r⟩ := p
    simp [natRomanGo, Nat.zero_div, Nat.zero_mod, ih, strRep]

lemma natRomanGo_skip (d : Nat) (r : String) (rest : List (Nat × String)) (n : Nat)
    (h : n < d) : natRomanGo ((d, r) :: rest) n = natRomanGo rest n := by
  simp [natRomanGo, Nat.div_eq_of_lt h, Nat.mod_eq_of_lt h, strRep]

lemma natRomanGo_step (d : Nat) (r : String) (rest : List (Nat × String)) (n : Nat)
    (hd : 0 < d) (h : d ≤ n) :
    natRomanGo ((d, r) :: rest) n = r ++ natRomanGo ((d, r) :: rest) (n - d) := by
  simp only [natRomanGo]
  rw [Nat.div_eq n d, Nat.mod_eq n d, if_pos ⟨hd, h⟩, if_pos ⟨hd, h⟩, strRep_succ,
    String.append_assoc]

lemma specRomanGo_drop : ∀ (fuel : Nat) (d : Nat) (r : String)
    (rest : List (Nat × String)) (n : Nat), n < d →
    specRomanGo ((d, r) :: rest) fuel n = specRomanGo rest fuel n := by
  intro fuel
  induction fuel with
  | zero => intro d r rest n _; rfl
  | succ f ihf =>
    intro d r rest n hn
    have hpred : (decide (d ≤ n)) = false := by simp; omega
    simp only [specRomanGo, List.find?_cons, hpred]
    cases hfind : rest.find? (fun p => decide (p.1 ≤ n)) with
    | none => rfl
    | some p =>
      obtain ⟨d2, r2⟩ := p
      have hle : d2 ≤ n := by
        have := List.find?_some hfind
        simpa using this
      simp only []
      rw [ihf d r rest (n - d2) (by omega)]

lemma natRomanGo_eq_specRomanGo : ∀ (fuel : Nat) (l : List (Nat × String)) (n : Nat),
    n ≤ fuel → (∀ p ∈ l, 0 < p.1) → natRomanGo l n = specRomanGo l fuel n := by
  intro fuel
  induction fuel with
  | zero =>
    intro l n hn _
    have hn0 : n = 0 := by omega
    subst hn0
    rw [natRomanGo_zero]
    rfl
  | succ f ihf =>
    intro l n hn hpos
    induction l with
    | nil =>
      simp [natRomanGo, specRomanGo]
    | cons p rest ihl =>
      obtain ⟨d, r⟩ := p
      have hd : 0 < d := hpos (d, r) (List.mem_cons_self _ _)
      by_cases hfit : d ≤ n
      · rw [natRomanGo_step d r rest n hd hfit]
        have hpred : (decide (d ≤ n)) = true := by simpa using hfit
        simp only [specRomanGo, List.find?_cons, hpred]
        rw [ihf ((d, r) :: rest) (n - d) (by omega) hpos]
      · rw [natRomanGo_skip d r rest n (by omega)]
        rw [specRomanGo_drop (f + 1) d r rest n (by omega)]
        exact ihl (fun q hq => hpos q (List.mem_cons_of_mem _ hq))

lemma natRoman_eq_specRoman (n : Nat) : natRoman n = specRoman n :=
  natRomanGo_eq_specRomanGo n romanDigits n le_rfl (by decide)

lemma toRomanGo_ofNat : ∀ (l : List (Nat × String)) (n : Nat) (acc : String),
    toRomanGo (l.map (fun p => ((p.1 : Int), p.2))) (n : Int) acc =
      some (acc ++ natRomanGo l n) := by
  intro l
  induction l with
  | nil => intro n acc; simp [toRomanGo, natRomanGo]
  | cons p rest ih =>
    obtain ⟨d, r⟩ := p
    intro n acc
    have hdiv : ((n : Int)).tdiv (d : Int) = ((n / d : Nat) : Int) := rfl
    have hmod : ((n : Int)).tmod (d : Int) = ((n % d : Nat) : Int) := rfl
    have hnn : ¬ ((n : Int)).tdiv (d : Int) < 0 := by
      rw [hdiv]; exact not_lt.mpr (Int.natCast_nonneg _)
    have htoNat : (((n / d : Nat) : Int)).toNat = n / d := rfl
    simp only [List.map_cons, toRomanGo, if_neg hnn, hmod, hdiv, htoNat]
    rw [ih (n % d) (acc ++ strRep r (n / d))]
    simp only [natRomanGo, String.append_assoc]
    rw [if_neg (show ¬ ((n / d : Nat) : Int) < 0 from not_lt.mpr (Int.natCast_nonneg _))]

lemma toRoman_natCast (n : Nat) : toRoman (n : Int) = some (natRoman n) := by
  have hmap : romanMap = romanDigits.map (fun p => ((p.1 : Int), p.2)) := by rfl
  rw [toRoman, hmap, toRomanGo_ofNat romanDigits n ""]
  simp [natRoman]

lemma toRomanGo_neg : ∀ (l : List (Int × String)) (acc : String) (num : Int),
    num < 0 → (∀ p ∈ l, 0 < p.1) → ((1 : Int) ∈ l.map Prod.fst) →
    toRomanGo l num acc = none := by
  intro l
  induction l with
  | nil => intro acc num _ _ h1; simp at h1
  | cons p rest ih =>
    obtain ⟨d, r⟩ := p
    intro acc num hneg hpos h1
    have hd : 0 < d := hpos (d, r) (List.mem_cons_self _ _)
    by_cases hq : num.tdiv d < 0
    · simp [toRomanGo, hq]
    · have hq0 : num.tdiv d = 0 := by
        have hle : num.tdiv d ≤ 0 := by
          have h2 : 0 ≤ (-num).tdiv d := Int.tdiv_nonneg (by omega) (by omega)
          have h3 : (-num).tdiv d = -(num.tdiv d) := Int.neg_tdiv num d
          omega
        omega
      by_cases hd1 : d = 1
      · exfalso
        rw [hd1, Int.tdiv_one] at hq0
        omega
      · have h1' : (1 : Int) ∈ rest.map Prod.fst := by
          simp only [List.map_cons, List.mem_cons] at h1
          rcases h1 with h1 | h1
          · exact absurd h1.symm hd1
          · exact h1
        have hmod : num.tmod d = num := by
          have h4 := Int.tdiv_add_tmod num d
          rw [hq0] at h4
          simpa using h4
        simp only [toRomanGo, hq, if_false]
        rw [hmod]
        exact ih _ num hneg (fun q hq2 => hpos q (List.mem_cons_of_mem _ hq2)) h1'

lemma toRoman_neg (n : Int) (h : n < 0) : toRoman n = none :=
  toRomanGo_neg romanMap "" n h (by decide) (by decide)

/-! ## Claim C8 -/

/-- C8 counterexample: on input `-1` the source's `toRoman` does not
return the empty string — its `while (quotient--)` loop never terminates
(recorded as `none` by the embedding). -/
theorem claim_C8_counterexample : toRoman (-1) = none ∧ toRoman (-1) ≠ some "" :=
  ⟨by decide, by decide⟩

/-- C8 (amended): `toRoman` realizes greedy descending substitution over
the standard subtractive map for every positive input and returns the
empty string for `0`; for negative inputs, however, it does not return the
empty string — the symbol-appending loop diverges. -/
theorem claim_C8_roman_conversion :
    ∀ n : Int, (0 < n → toRoman n = some (specRoman n.toNat)) ∧
      (n = 0 → toRoman n = some "") ∧ (n < 0 → toRoman n = none) := by
  intro n
  refine ⟨?_, ?_, ?_⟩
  · intro h
    obtain ⟨m, hm⟩ : ∃ m : Nat, n = (m : Int) := ⟨n.toNat, by omega⟩
    subst hm
    rw [toRoman_natCast, natRoman_eq_specRoman]
    rfl
  · intro h
    subst h
    decide
  · exact toRoman_neg n

theorem claim_C8_witness :
    toRoman 1987 = some (specRoman (1987 : Int).toNat) ∧ toRoman (-3) = none :=
  ⟨(claim_C8_roman_conversion 1987).1 (by decide),
   (claim_C8_roman_conversion (-3)).2.2 (by decide)⟩

/-! ## Claims C1, C6, C7 -/

lemma toRoman_succ (idx : Nat) : toRoman ((idx : Int) + 1) = some (natRoman (idx + 1)) := by
  have h : ((idx : Int) + 1) = ((idx + 1 : Nat) : Int) := by omega
  rw [h, toRoman_natCast]

lemma liWalk_spec : ∀ (l : List SibInfo) (cur init : Int),
    liWalk cur init l =
      (match l.find? liValuePred with
       | some s => (jsParseInt s.value).getD 0 + (cur - (s.indexOfType : Int)) - 1
       | none => init) := by
  intro l
  induction l with
  | nil => intro cur init; rfl
  | cons s rest ih =>
    intro cur init
    by_cases ht : s.tag = "li"
    · cases hv : jsParseInt s.value with
      | some v =>
        have hp : liValuePred s = true := by simp [liValuePred, ht, hv]
        simp [liWalk, ht, List.find?_cons, hp, hv]
      | none =>
        have hp : liValuePred s = false := by simp [liValuePred, ht, hv]
        simp [liWalk, ht, List.find?_cons, hp, hv, ih]
    · have hp : liValuePred s = false := by simp [liValuePred, ht]
      simp [liWalk, ht, List.find?_cons, hp, ih]

/-- C1: the backward walk stops at the first `li` in the chain (the item
itself first, non-`li` siblings skipped without terminating) whose `value`
parses, yielding `startValue + (currentIndex - indexOfType) - 1`, and
otherwise keeps `currentIndex` plus the start offset; an item whose own
`value` parses as `v` renders `"v."`, and its next `li` sibling without a
`value` renders `"v+1."` whatever its position. -/
theorem claim_C1_ordered_value_walk :
    (∀ e : LiElement,
      liUpdatedIndex e =
        match (selfChain e).find? liValuePred with
        | some s =>
          (jsParseInt s.value).getD 0 + ((e.indexOfType : Int) - (s.indexOfType : Int)) - 1
        | none => (e.indexOfType : Int) + liOffset e) ∧
    (∀ (e : LiElement) (v : Int), liOrdered e = true → effLst e = "decimal" →
      jsParseInt e.value = some v →
      liBullet e = .ok (.text (toString v ++ "."))) ∧
    (∀ (e : LiElement) (s : SibInfo) (rest : List SibInfo) (v : Int),
      liOrdered e = true → effLst e = "decimal" → jsParseInt e.value = none →
      e.prevSiblings = s :: rest → s.tag = "li" → jsParseInt s.value = some v →
      e.indexOfType = s.indexOfType + 1 →
      liBullet e = .ok (.text (toString (v + 1) ++ "."))) := by
  refine ⟨?_, ?_, ?_⟩
  · intro e
    exact liWalk_spec (selfChain e) _ _
  · intro e v hord hlst hv
    have hui : liUpdatedIndex e = v - 1 := by
      simp [liUpdatedIndex, selfChain, liWalk, hv]
    have hd1 : strIncludes "decimal" "none" = false := by decide
    have hd2 : strIncludes "decimal" "url(" = false := by decide
    have hd3 : lowerAlpha.contains "decimal" = false := by decide
    have hd4 : upperAlpha.contains "decimal" = false := by decide
    simp only [liBullet, hlst, hd1, hd2, hd3, hd4, hord, if_true, Bool.false_eq_true,
      if_false, hui]
    have hv1 : v - 1 + 1 = v := by ring
    simp [hv1]
  · intro e s rest v hord hlst hvn hprev hs hsv hidx
    have hui : liUpdatedIndex e = v := by
      simp only [liUpdatedIndex, selfChain, liWalk, hvn, hprev, hs, hsv]
      simp only [ne_eq, not_true_eq_false, if_false]
      rw [hidx]
      push_cast
      ring
    have hd1 : strIncludes "decimal" "none" = false := by decide
    have hd2 : strIncludes "decimal" "url(" = false := by decide
    have hd3 : lowerAlpha.contains "decimal" = false := by decide
    have hd4 : upperAlpha.contains "decimal" = false := by decide
    simp only [liBullet, hlst, hd1, hd2, hd3, hd4, hord, if_true, Bool.false_eq_true,
      if_false, hui]
    simp

theorem claim_C1_witness :
    liBullet { indexOfType := 5, value := some "10", parentTag := "ol",
               parentStart := none, list := none,
               ownStyles := [{ listStyleType := some "decimal" }],
               prevSiblings := [⟨"li", none, 4⟩] } = .ok (.text "10.") ∧
    liBullet { indexOfType := 6, value := none, parentTag := "ol",
               parentStart := none, list := none,
               ownStyles := [{ listStyleType := some "decimal" }],
               prevSiblings := [⟨"li", some "10", 5⟩, ⟨"li", none, 4⟩] } =
      .ok (.text "11.") :=
  ⟨(claim_C1_ordered_value_walk.2.1 _ 10 (by decide) (by decide) (by decide)).trans
      (by decide),
   (claim_C1_ordered_value_walk.2.2 _ ⟨"li", some "10", 5⟩ [⟨"li", none, 4⟩] 10
      (by decide) (by decide) (by decide) rfl rfl (by decide) rfl).trans (by decide)⟩

/-- C6: under `lower-roman` (resp. `upper-roman`) an ordered item's marker
is the Roman numeral of its raw 1-based `indexOfType`, whatever its
`value` attribute, the list's `start`, or any preceding sibling's
overrides. -/
theorem claim_C6_roman_uses_raw_index :
    (∀ e : LiElement, liOrdered e = true → effLst e = "lower-roman" →
      liBullet e = .ok (.text (strLower (specRoman (e.indexOfType + 1)) ++ "."))) ∧
    (∀ e : LiElement, liOrdered e = true → effLst e = "upper-roman" →
      liBullet e = .ok (.text (strUpper (specRoman (e.indexOfType + 1)) ++ "."))) := by
  constructor
  · intro e hord hlst
    have h1 : strIncludes "lower-roman" "none" = false := by decide
    have h2 : strIncludes "lower-roman" "url(" = false := by decide
    have h3 : lowerAlpha.contains "lower-roman" = false := by decide
    have h4 : upperAlpha.contains "lower-roman" = false := by decide
    have hr := toRoman_succ e.indexOfType
    simp only [liBullet, hlst, h1, h2, h3, h4, hord, if_true, Bool.false_eq_true,
      if_false, hr, natRoman_eq_specRoman]
  · intro e hord hlst
    have h1 : strIncludes "upper-roman" "none" = false := by decide
    have h2 : strIncludes "upper-roman" "url(" = false := by decide
    have h3 : lowerAlpha.contains "upper-roman" = false := by decide
    have h4 : upperAlpha.contains "upper-roman" = false := by decide
    have hr := toRoman_succ e.indexOfType
    simp only [liBullet, hlst, h1, h2, h3, h4, hord, if_true, Bool.false_eq_true,
      if_false, hr, natRoman_eq_specRoman]
    simp

theorem claim_C6_witness :
    liBullet { indexOfType := 3, value := some "7", parentTag := "ol",
               parentStart := some "5", list := none,
               ownStyles := [{ listStyleType := some "lower-roman" }],
               prevSiblings := [⟨"li", some "2", 2⟩] } = .ok (.text "iv.") ∧
    liBullet { indexOfType := 3, value := some "7", parentTag := "ol",
               parentStart := some "5", list := none,
               ownStyles := [{ listStyleType := some "upper-roman" }],
               prevSiblings := [⟨"li", some "2", 2⟩] } = .ok (.text "IV.") :=
  ⟨(claim_C6_roman_uses_raw_index.1 _ (by decide) (by decide)).trans (by decide),
   (claim_C6_roman_uses_raw_index.2 _ (by decide) (by decide)).trans (by decide)⟩

/-- C7 counterexample: the list resolver does throw — an ordered item
styled `lower-alpha` whose own `value` is `"-5"` drives the adjusted index
to `-6`, and the source calls `toLowerCase` on
`orderedAlpha[-6] = undefined`. -/
theorem claim_C7_counterexample :
    liBullet { indexOfType := 0, value := some "-5", parentTag := "ol",
               parentStart := none,
               list := some ⟨"ol", [{ listStyleType := some "lower-alpha" }]⟩,
               ownStyles := [], prevSiblings := [] } =
      .error "TypeError: toLowerCase of undefined" := by decide

/-- C7 (amended): malformed `start`/`value` attributes are indeed ignored,
but the resolver is not exception-free: it throws exactly when the style
contains `url(` with no parseable parenthesized group, or when the list is
ordered with an alphabetic style and the adjusted index is outside the
alphabetic table. -/
theorem claim_C7_throw_characterization :
    ∀ e : LiElement, isErr (liBullet e) = liThrows e := by
  intro e
  by_cases h1 : strIncludes (effLst e) "none" = true
  · simp [liBullet, liThrows, h1, isErr]
  · by_cases h2 : strIncludes (effLst e) "url(" = true
    · cases hx : extractParen (effLst e) with
      | none => simp [liBullet, liThrows, h1, h2, hx, isErr]
      | some u => simp [liBullet, liThrows, h1, h2, hx, isErr]
    · by_cases h3 : liOrdered e = true
      · by_cases h4 : effLst e ∈ lowerAlpha
        · cases ha : alphaAt (liUpdatedIndex e) with
          | none => simp [liBullet, liThrows, h1, h2, h3, h4, ha, isErr]
          | some a => simp [liBullet, liThrows, h1, h2, h3, h4, ha, isErr]
        · by_cases h5 : effLst e ∈ upperAlpha
          · cases ha : alphaAt (liUpdatedIndex e) with
            | none => simp [liBullet, liThrows, h1, h2, h3, h4, h5, ha, isErr]
            | some a => simp [liBullet, liThrows, h1, h2, h3, h4, h5, ha, isErr]
          · by_cases h6 : effLst e = "lower-roman"
            · have hr := toRoman_succ e.indexOfType
              have hc1 : strIncludes "lower-roman" "none" = false := by decide
              have hc2 : strIncludes "lower-roman" "url(" = false := by decide
              have hc3 : ("lower-roman" : String) ∉ lowerAlpha := by decide
              have hc4 : ("lower-roman" : String) ∉ upperAlpha := by decide
              simp [liBullet, liThrows, h3, h6, hr, isErr, hc1, hc2, hc3, hc4]
            · by_cases h7 : effLst e = "upper-roman"
              · have hr := toRoman_succ e.indexOfType
                have hc1 : strIncludes "upper-roman" "none" = false := by decide
                have hc2 : strIncludes "upper-roman" "url(" = false := by decide
                have hc3 : ("upper-roman" : String) ∉ lowerAlpha := by decide
                have hc4 : ("upper-roman" : String) ∉ upperAlpha := by decide
                simp [liBullet, liThrows, h3, h7, hr, isErr, hc1, hc2, hc3, hc4]
              · simp [liBullet, liThrows, h1, h2, h3, h4, h5, h6, h7, isErr]
      · simp [liBullet, liThrows, h1, h2, h3, isErr]
